import Mathlib

/-!
Shallow embedding of the kson pulse-indexed timeline / curve-evaluation core
(`include/kson/util/graph_utils.hpp`, `src/util/graph_curve.cpp`), together with
theorems settling the specification claims about it.

Conventions of the embedding:
* C++ `Pulse` / `RelPulse` (`std::int64_t`) are modelled as `Int`; the claims
  never exercise 64-bit overflow, and all key arithmetic in the source is
  subtraction/addition of in-range keys.
* C++ `double` is modelled as `ℝ`.
* `std::map<Pulse, T>` is modelled as an association list sorted by strictly
  ascending key (`List.Chain' (fun a b => a.1 < b.1)`); its member functions
  (`upper_bound`, `insert`, `operator[]`, `contains`/`at`) are modelled by the
  explicit functions below.  Iterators are modelled as positions (`Nat` index,
  with the list length playing `end()`), and functions returning an iterator
  return `Option` (`none` = `end()`).
-/

/-- The value pair `(v, vf)` of a graph point (`GraphValue` in the source;
`common.hpp` is not under `src/`, the shape is taken from its uses in
`KsonIOIn.cpp` and `graph_curve.cpp` and from the spec's Data Model: `v` is the
value approached on entry, `vf` the value right after an instantaneous jump). -/
structure GraphValue where
  v : ℝ
  vf : ℝ

/-- The easing descriptor `(a, b)` of a point (`GraphCurveValue` in the source;
shape taken from its uses and the spec's Data Model). -/
structure GraphCurveValue where
  a : ℝ
  b : ℝ

/-- `GraphCurveValue::isLinear`: the pair `(0, 0)` is the linear sentinel
(spec Data Model; the parser `KsonIOIn.cpp` defaults curves to `{0.0, 0.0}`). -/
def GraphCurveValue.isLinear (c : GraphCurveValue) : Prop :=
  c.a = 0 ∧ c.b = 0

noncomputable instance (c : GraphCurveValue) : Decidable c.isLinear :=
  inferInstanceAs (Decidable (c.a = 0 ∧ c.b = 0))

/-- A control point: value plus outgoing curve (`GraphPoint` in the source;
`GraphPoint{v, curve}` in `KsonIOIn.cpp`). -/
structure GraphPoint where
  v : GraphValue
  curve : GraphCurveValue

/-- `Graph` = `ByPulse<GraphPoint>` = `std::map<Pulse, GraphPoint>`, modelled as
an association list sorted by strictly ascending key. -/
abbrev Graph := List (Int × GraphPoint)

/-- `GraphSection` (shape from `graph_utils.hpp` uses: a member `v` holding the
section's internal timeline keyed by `RelPulse`). -/
structure GraphSection where
  v : Graph

/-- `kLaserXScale1x` from `note_info.hpp`. -/
def kLaserXScale1x : Int := 1

/-- `LaserSection` from `note_info.hpp`: laser points `v` plus the width flag
`w` (the element type of `v` is the one `graph_curve.cpp` and `KsonIOIn.cpp`
actually store: a `GraphPoint` with value and curve). -/
structure LaserSection where
  v : Graph
  w : Int

/-- The members `graphSection.v` used by the `GraphSectionValueAt` /
`GraphPointAt` templates, which accept either `GraphSection` or
`LaserSection`. -/
class HasGraphV (GS : Type) where
  v : GS → Graph

instance : HasGraphV GraphSection :=
  ⟨GraphSection.v⟩

instance : HasGraphV LaserSection :=
  ⟨LaserSection.v⟩

/-! ## `std::map` operations on the sorted association list -/

/-- Position-based element access: `nthEntry l i` is the entry at iterator
position `i`, `none` when `i` is the `end()` position (or beyond). -/
def nthEntry {α : Type} : List α → Nat → Option α
  | [], _ => none
  | x :: _, 0 => some x
  | _ :: xs, n + 1 => nthEntry xs n

/-- `std::map::upper_bound`: index of the first entry whose key is strictly
greater than `pulse` (equal to the length when there is none). -/
def upperBoundIdx {α : Type} : List (Int × α) → Int → Nat
  | [], _ => 0
  | (k, _) :: rest, pulse => if pulse < k then 0 else upperBoundIdx rest pulse + 1

/-- `std::map::contains` / `std::map::at` combined: the stored value at exactly
key `key`, if present. -/
def lookupEntry {α : Type} : List (Int × α) → Int → Option α
  | [], _ => none
  | (k, v) :: rest, key => if key = k then some v else lookupEntry rest key

/-- `std::map::insert`: ordered insert that keeps the existing entry when the
key is already present. -/
def insertEntry {α : Type} : List (Int × α) → Int → α → List (Int × α)
  | [], k, v => [(k, v)]
  | (k0, v0) :: rest, k, v =>
    if k < k0 then (k, v) :: (k0, v0) :: rest
    else if k = k0 then (k0, v0) :: rest
    else (k0, v0) :: insertEntry rest k v

/-- `std::map::operator[] = value`: ordered insert that overwrites an existing
entry. -/
def setEntry {α : Type} : List (Int × α) → Int → α → List (Int × α)
  | [], k, v => [(k, v)]
  | (k0, v0) :: rest, k, v =>
    if k < k0 then (k, v) :: (k0, v0) :: rest
    else if k = k0 then (k, v) :: rest
    else (k0, v0) :: setEntry rest k v

/-! ## Curve evaluator (`graph_curve.cpp`) -/

/-- `std::clamp(x, lo, hi)`. -/
noncomputable def clamp (x lo hi : ℝ) : ℝ :=
  if x < lo then lo else if hi < x then hi else x

/-- Modelled from the spec: `AlmostEquals` lives in `common.hpp`, which is not
under `src/`.  The spec calls the guarded condition "`a` is numerically equal
to `0.5`", modelled as real equality. -/
def AlmostEquals (x y : ℝ) : Prop :=
  x = y

noncomputable instance (x y : ℝ) : Decidable (AlmostEquals x y) :=
  inferInstanceAs (Decidable (x = y))

/-- `std::lerp(a, b, t)`. -/
def lerp (a b t : ℝ) : ℝ :=
  a + t * (b - a)

/-- `EvaluateCurve(double a, double b, double x)` from `graph_curve.cpp`:
clamp the three inputs to `[0,1]`; return `x` when `a` is (almost) `0.5`
(zero denominator) or when the discriminant `a² + x − 2ax` is negative;
otherwise `clamp(2(1−t)t·b + t², 0, 1)` with
`t = (a − sqrt(discriminant)) / (−1 + 2a)`. -/
noncomputable def EvaluateCurve (a b x : ℝ) : ℝ :=
  let a := clamp a 0 1
  let b := clamp b 0 1
  let x := clamp x 0 1
  if AlmostEquals a 0.5 then x
  else
    let discriminant := a * a + x - 2 * a * x
    if discriminant < 0 then x
    else
      let t := (a - Real.sqrt discriminant) / (-1 + 2 * a)
      clamp (2 * (1 - t) * t * b + t * t) 0 1

/-- `EvaluateCurve(const GraphCurveValue& curve, double x)` from
`graph_curve.cpp`: the linear sentinel bypasses the formula. -/
noncomputable def EvaluateCurveValue (curve : GraphCurveValue) (x : ℝ) : ℝ :=
  if curve.isLinear then x else EvaluateCurve curve.a curve.b x

/-! ## Segment lookup and value sampling (`graph_utils.hpp`) -/

/-- `GraphSectionAt` from `graph_utils.hpp`: `upper_bound(pulse)`, step back one
position unless already at `begin()`, return the entry there (`none` = `end()`).
The source `assert(!graphSections.empty())` is a debug assertion; with it
compiled out, the empty container flows through `upper_bound` and yields
`end()`. -/
def GraphSectionAt {α : Type} (graphSections : List (Int × α)) (pulse : Int) :
    Option (Int × α) :=
  let i := upperBoundIdx graphSections pulse
  nthEntry graphSections (if i ≠ 0 then i - 1 else i)

/-- Modelled from the spec: `GraphValueAt` is declared in `graph_utils.hpp` but
its definition (`graph_value.cpp` or similar) is not under `src/`.  Spec §4.3(1):
floor-locate the governing point; when a following point exists, interpolate
`lerp(segment.vf, next.v, evaluate(curve, x))` with
`x = (pulse − k1)/(k2 − k1)`; an exact match on a final point yields its value;
where the spec leaves the value undefined the `double` signature is modelled as
returning `0`. -/
noncomputable def GraphValueAt (graph : Graph) (pulse : Int) : ℝ :=
  let i := upperBoundIdx graph pulse
  if i = 0 then 0
  else
    match nthEntry graph (i - 1), nthEntry graph i with
    | some (k1, p1), some (k2, p2) =>
      lerp p1.v.vf p2.v.v
        (EvaluateCurveValue p1.curve (((pulse - k1 : Int) : ℝ) / ((k2 - k1 : Int) : ℝ)))
    | some (k1, p1), none => if pulse = k1 then p1.v.v else 0
    | _, _ => 0

/-- `GraphSectionValueAt` from `graph_utils.hpp`: empty outer container or
`end()` section means no value; then no value when the section has at most one
point, or when the relative pulse `ry = pulse − y` is before the first point's
key or at/after the last point's key; otherwise delegate to `GraphValueAt` on
the section's internal timeline. -/
noncomputable def GraphSectionValueAt {GS : Type} [HasGraphV GS]
    (graphSections : List (Int × GS)) (pulse : Int) : Option ℝ :=
  if graphSections.isEmpty then none
  else
    match GraphSectionAt graphSections pulse with
    | none => none
    | some (y, graphSection) =>
      let ry : Int := pulse - y
      let sv := HasGraphV.v graphSection
      if sv.length ≤ 1 then none
      else
        match sv.head?, sv.getLast? with
        | some (firstRy, _), some (lastRy, _) =>
          if ry < firstRy then none
          else if lastRy ≤ ry then none
          else some (GraphValueAt sv ry)
        | _, _ => none

/-- `GraphSectionValueAtWithDefault` from `graph_utils.hpp`. -/
noncomputable def GraphSectionValueAtWithDefault {GS : Type} [HasGraphV GS]
    (graphSections : List (Int × GS)) (pulse : Int) (defaultValue : ℝ) : ℝ :=
  match GraphSectionValueAt graphSections pulse with
  | some v => v
  | none => defaultValue

/-- `GraphPointAt` from `graph_utils.hpp`: resolve the governing section, then
look up the exact relative key (`contains` + `at`, uncombined in the source,
combined here into one `lookupEntry`). -/
def GraphPointAt {GS : Type} [HasGraphV GS]
    (graphSections : List (Int × GS)) (pulse : Int) : Option GraphPoint :=
  if graphSections.isEmpty then none
  else
    match GraphSectionAt graphSections pulse with
    | none => none
    | some (y, graphSection) =>
      match lookupEntry (HasGraphV.v graphSection) (pulse - y) with
      | none => none
      | some p => some p

/-! ## Curve expansion (`graph_curve.cpp`) -/

/-- The intermediate point the expansion loop body stores at `y1 + ry`:
`GraphPoint(GraphValue(interpolatedValue))` — both value fields equal, curve
defaulted to the linear sentinel, with
`interpolatedValue = std::lerp(point1.v.vf, point2.v.v, EvaluateCurve(point1.curve, ry / segmentLength))`. -/
noncomputable def interPoint (p1 p2 : GraphPoint) (segmentLength ry : Int) : GraphPoint :=
  let lerpRate : ℝ := ((ry : Int) : ℝ) / ((segmentLength : Int) : ℝ)
  let curveValue := EvaluateCurveValue p1.curve lerpRate
  let interpolatedValue := lerp p1.v.vf p2.v.v curveValue
  ⟨⟨interpolatedValue, interpolatedValue⟩, ⟨0, 0⟩⟩

/-- The inner `for (Pulse ry = ...; ry < segmentLength; ry += subdivisionInterval)`
loop of `ExpandCurveSegments`, threading the `result` map it writes into. -/
noncomputable def subdivLoop (s : Int) (hs : 0 < s) (segmentLength y1 : Int)
    (p1 p2 : GraphPoint) (ry : Int) (result : Graph) : Graph :=
  if h : ry < segmentLength then
    subdivLoop s hs segmentLength y1 p1 p2 (ry + s)
      (setEntry result (y1 + ry) (interPoint p1 p2 segmentLength ry))
  else result
termination_by (segmentLength - ry).toNat
decreasing_by
  omega

/-- The outer `while (itr != endItr)` loop of `ExpandCurveSegments`: walk
consecutive pairs; a linear outgoing curve copies the next point, a curved one
first runs the subdivision loop and then copies the next point. -/
noncomputable def expandLoop (s : Int) (hs : 0 < s) :
    Int × GraphPoint → List (Int × GraphPoint) → Graph → Graph
  | _, [], result => result
  | (y1, p1), (y2, p2) :: rest, result =>
    if p1.curve.isLinear then
      expandLoop s hs (y2, p2) rest (insertEntry result y2 p2)
    else
      expandLoop s hs (y2, p2) rest
        (insertEntry (subdivLoop s hs (y2 - y1) y1 p1 p2 s result) y2 p2)

/-- `ExpandCurveSegments(const Graph&, Pulse)` from `graph_curve.cpp`:
non-positive subdivision interval throws `std::invalid_argument`; an empty
graph is returned unchanged; otherwise the first point is copied and the loop
above runs. -/
noncomputable def ExpandCurveSegments (graph : Graph) (subdivisionInterval : Int) :
    Except String Graph :=
  if h : subdivisionInterval ≤ 0 then
    Except.error "subdivisionInterval must be positive"
  else
    match graph with
    | [] => Except.ok graph
    | (y1, p1) :: rest =>
      Except.ok
        (expandLoop subdivisionInterval (by omega) (y1, p1) rest (insertEntry [] y1 p1))

/-- `ExpandCurveSegments(const GraphSection&, RelPulse)` from `graph_curve.cpp`:
the same loop over `graphSection.v` (the source repeats the loop verbatim). -/
noncomputable def ExpandCurveSegmentsSection (graphSection : GraphSection)
    (subdivisionInterval : Int) : Except String GraphSection :=
  if h : subdivisionInterval ≤ 0 then
    Except.error "subdivisionInterval must be positive"
  else
    match graphSection.v with
    | [] => Except.ok graphSection
    | (ry1, p1) :: rest =>
      Except.ok
        ⟨expandLoop subdivisionInterval (by omega) (ry1, p1) rest (insertEntry [] ry1 p1)⟩

/-- `ExpandCurveSegments(const LaserSection&, RelPulse)` from `graph_curve.cpp`:
the same loop over `laserSection.v`, and the width flag `w` is copied. -/
noncomputable def ExpandCurveSegmentsLaser (laserSection : LaserSection)
    (subdivisionInterval : Int) : Except String LaserSection :=
  if h : subdivisionInterval ≤ 0 then
    Except.error "subdivisionInterval must be positive"
  else
    match laserSection.v with
    | [] => Except.ok laserSection
    | (ry1, p1) :: rest =>
      Except.ok
        ⟨expandLoop subdivisionInterval (by omega) (ry1, p1) rest (insertEntry [] ry1 p1),
          laserSection.w⟩

/-! ## Flattened form of the expansion loops

The loops above write into a `std::map`; because every write uses a key strictly
greater than every key already present, the map they build is the plain
concatenation below.  The lemmas following the definitions prove that. -/

/-- The list of intermediate entries produced by one run of the subdivision
loop, in insertion order. -/
noncomputable def subdivBlock (s : Int) (hs : 0 < s) (segmentLength y1 : Int)
    (p1 p2 : GraphPoint) (ry : Int) : Graph :=
  if h : ry < segmentLength then
    (y1 + ry, interPoint p1 p2 segmentLength ry) ::
      subdivBlock s hs segmentLength y1 p1 p2 (ry + s)
  else []
termination_by (segmentLength - ry).toNat
decreasing_by
  omega

/-- The entries the outer loop appends after its starting point, in insertion
order. -/
noncomputable def expandFlat (s : Int) (hs : 0 < s) :
    Int × GraphPoint → List (Int × GraphPoint) → Graph
  | _, [] => []
  | (y1, p1), (y2, p2) :: rest =>
    if p1.curve.isLinear then (y2, p2) :: expandFlat s hs (y2, p2) rest
    else
      subdivBlock s hs (y2 - y1) y1 p1 p2 s ++ (y2, p2) :: expandFlat s hs (y2, p2) rest

/-- The Curve Evaluator exactly as claim C3 words it: clamp each of `a`, `b`,
`x` into `[0,1]`; if the clamped `a` is numerically equal to `0.5`, return the
clamped `x` unchanged; if the discriminant `a·a + x − 2·a·x` is negative,
return the clamped `x` unchanged; otherwise `clamp(2(1−t)·t·b + t·t, 0, 1)`
with `t = (a − sqrt(a·a + x − 2·a·x)) / (2·a − 1)`.  It is a total function:
it never fails or diverges. -/
noncomputable def EvaluateCurveSpecC3 (a b x : ℝ) : ℝ :=
  let ac := max 0 (min a 1)
  let bc := max 0 (min b 1)
  let xc := max 0 (min x 1)
  if AlmostEquals ac 0.5 then xc
  else if ac * ac + xc - 2 * ac * xc < 0 then xc
  else
    let t := (ac - Real.sqrt (ac * ac + xc - 2 * ac * xc)) / (2 * ac - 1)
    max 0 (min (2 * (1 - t) * t * bc + t * t) 1)

/-- Consecutive output entries are "good" for interval `s`: the earlier one is
linear, or the key gap is at most `s`.  A second expansion pass inserts nothing
into a graph whose consecutive entries are all good. -/
def goodPair (s : Int) (a b : Int × GraphPoint) : Prop :=
  a.2.curve.isLinear ∨ b.1 - a.1 ≤ s

/-! ## Helper lemmas on the map model -/

theorem upperBoundIdx_le_length {α : Type} (l : List (Int × α)) (pulse : Int) :
    upperBoundIdx l pulse ≤ l.length := by
  induction l with
  | nil => simp [upperBoundIdx]
  | cons hd tl ih =>
    obtain ⟨k, v⟩ := hd
    simp only [upperBoundIdx, List.length_cons]
    split
    · omega
    · omega

theorem nthEntry_isSome {α : Type} (l : List α) (n : Nat) (h : n < l.length) :
    ∃ e, nthEntry l n = some e := by
  induction l generalizing n with
  | nil => simp at h
  | cons hd tl ih =>
    cases n with
    | zero => exact ⟨hd, rfl⟩
    | succ m =>
      simp only [List.length_cons, Nat.succ_lt_succ_iff] at h
      exact ih m h

theorem chain_lt_of_mem {α : Type} {e : Int × α} {l : List (Int × α)}
    (h : List.Chain (fun a b => a.1 < b.1) e l) :
    ∀ eOther ∈ l, e.1 < eOther.1 := by
  induction h with
  | nil => intro e' h'; cases h'
  | cons hab hchain ih =>
    intro e' h'
    rcases List.mem_cons.mp h' with h' | h'
    · exact h' ▸ hab
    · exact lt_trans hab (ih e' h')

theorem graphSectionAt_cons_cons {α : Type} (k0 k1 : Int) (v0 v1 : α)
    (tl : List (Int × α)) (pulse : Int) (h0 : k0 ≤ pulse) (h1 : k1 ≤ pulse) :
    GraphSectionAt ((k0, v0) :: (k1, v1) :: tl) pulse
      = GraphSectionAt ((k1, v1) :: tl) pulse := by
  simp only [GraphSectionAt, upperBoundIdx, if_neg (not_lt.mpr h0), if_neg (not_lt.mpr h1)]
  simp only [Nat.succ_ne_zero, ne_eq, not_false_eq_true, if_true, Nat.add_sub_cancel,
    nthEntry]

/-! ## Claims C1 and C5: segment lookup -/

/-- Claim C1 is false as stated: for a non-empty container whose first key is
strictly greater than the query pulse, `GraphSectionAt` does not return the
end/"none" result; it returns the first entry (here the section keyed `10`
for query pulse `5`). -/
theorem graphSectionAt_before_first_not_none :
    (5 : Int) < 10 ∧
      GraphSectionAt [((10 : Int), GraphSection.mk [])] 5
        = some (10, GraphSection.mk []) := by
  exact ⟨by norm_num, rfl⟩

/-- Claim C1 (amended): `GraphSectionAt` returns the end/"none" result exactly
when the container is empty; for a non-empty container whose first (smallest)
key is strictly greater than the query pulse it returns the first entry rather
than "none". -/
theorem graphSectionAt_none_iff_empty {α : Type} (l : List (Int × α))
    (k : Int) (v : α) (rest : List (Int × α)) (pulse q : Int) (h : q < k) :
    (GraphSectionAt l pulse = none ↔ l = []) ∧
      GraphSectionAt ((k, v) :: rest) q = some (k, v) := by
  constructor
  · constructor
    · intro hnone
      by_contra hne
      have hlen : 0 < l.length := List.length_pos.mpr hne
      have hub := upperBoundIdx_le_length l pulse
      have hidx :
          (if upperBoundIdx l pulse ≠ 0 then upperBoundIdx l pulse - 1
            else upperBoundIdx l pulse) < l.length := by
        split <;> omega
      obtain ⟨e, he⟩ := nthEntry_isSome l _ hidx
      rw [GraphSectionAt] at hnone
      rw [he] at hnone
      exact Option.some_ne_none e hnone
    · intro hl
      subst hl
      rfl
  · have hub : upperBoundIdx ((k, v) :: rest) q = 0 := by
      simp [upperBoundIdx, h]
    simp [GraphSectionAt, hub, nthEntry]

theorem graphSectionAt_none_iff_empty_witness :
    (5 : Int) < 10 ∧
      ((GraphSectionAt ([] : List (Int × GraphSection)) 7 = none ↔
          ([] : List (Int × GraphSection)) = []) ∧
        GraphSectionAt [((10 : Int), GraphSection.mk [])] 5
          = some (10, GraphSection.mk [])) :=
  ⟨by norm_num,
    graphSectionAt_none_iff_empty ([] : List (Int × GraphSection)) 10
      (GraphSection.mk []) [] 7 5 (by norm_num)⟩

/-- Claim C5: for a non-empty container and a query pulse at or after the first
key, `GraphSectionAt` returns the entry with the greatest key less than or
equal to the query pulse (floor/predecessor rule, exact matches included). -/
theorem graphSectionAt_floor {α : Type} (k0 : Int) (v0 : α)
    (rest : List (Int × α)) (pulse : Int)
    (hsort : List.Chain' (fun a b => a.1 < b.1) ((k0, v0) :: rest))
    (h0 : k0 ≤ pulse) :
    ∃ e, GraphSectionAt ((k0, v0) :: rest) pulse = some e ∧
      e ∈ (k0, v0) :: rest ∧ e.1 ≤ pulse ∧
      ∀ eOther ∈ (k0, v0) :: rest, eOther.1 ≤ pulse → eOther.1 ≤ e.1 := by
  induction rest generalizing k0 v0 with
  | nil =>
    refine ⟨(k0, v0), ?_, by simp, h0, ?_⟩
    · simp [GraphSectionAt, upperBoundIdx, if_neg (not_lt.mpr h0), nthEntry]
    · intro eOther he _
      simp only [List.mem_singleton] at he
      simp [he]
  | cons hd tl ih =>
    obtain ⟨k1, v1⟩ := hd
    have hk01 : k0 < k1 := (List.chain'_cons.mp hsort).1
    by_cases h1 : k1 ≤ pulse
    · obtain ⟨e, he, hmem, hle, hmax⟩ := ih k1 v1 hsort.tail h1
      refine ⟨e, ?_, List.mem_cons_of_mem _ hmem, hle, ?_⟩
      · rw [graphSectionAt_cons_cons k0 k1 v0 v1 tl pulse h0 h1]
        exact he
      · intro eOther hme hle'
        rcases List.mem_cons.mp hme with hme | hme
        · have hk1e : k1 ≤ e.1 := hmax (k1, v1) (List.mem_cons_self _ _) h1
          subst hme
          exact le_trans (le_of_lt hk01) hk1e
        · exact hmax eOther hme hle'
    · push_neg at h1
      refine ⟨(k0, v0), ?_, List.mem_cons_self _ _, h0, ?_⟩
      · simp [GraphSectionAt, upperBoundIdx, if_neg (not_lt.mpr h0), if_pos h1, nthEntry]
      · intro eOther hme hle'
        rcases List.mem_cons.mp hme with hme | hme
        · subst hme
          exact le_refl _
        · exfalso
          rcases List.mem_cons.mp hme with hme' | hme'
          · subst hme'
            exact absurd hle' (not_le.mpr h1)
          · have hk1 : k1 < eOther.1 := chain_lt_of_mem (e := (k1, v1))
              (List.chain'_cons.mp hsort).2 eOther hme'
            exact absurd (le_trans (le_of_lt hk1) hle') (not_le.mpr h1)

theorem graphSectionAt_floor_witness :
    List.Chain' (fun a b : Int × GraphSection => a.1 < b.1)
        [((0 : Int), GraphSection.mk []), (10, GraphSection.mk [])] ∧
      (0 : Int) ≤ 10 ∧
      ∃ e, GraphSectionAt [((0 : Int), GraphSection.mk []), (10, GraphSection.mk [])] 10
            = some e ∧
          e ∈ [((0 : Int), GraphSection.mk []), (10, GraphSection.mk [])] ∧
          e.1 ≤ 10 ∧
          ∀ eOther ∈ [((0 : Int), GraphSection.mk []), (10, GraphSection.mk [])],
            eOther.1 ≤ 10 → eOther.1 ≤ e.1 := by
  refine ⟨?_, by norm_num, ?_⟩
  · simp [List.chain'_cons]
  · exact graphSectionAt_floor 0 (GraphSection.mk []) [(10, GraphSection.mk [])] 10
      (by simp [List.chain'_cons]) (by norm_num)

/-! ## Claims C3 and C9: curve evaluator -/

theorem clamp_eq_max_min (x : ℝ) : clamp x 0 1 = max 0 (min x 1) := by
  rw [clamp]
  split_ifs with h1 h2
  · rw [min_eq_left (le_trans h1.le zero_le_one), max_eq_left h1.le]
  · rw [min_eq_right h2.le, max_eq_right zero_le_one]
  · rw [min_eq_left (not_lt.mp h2), max_eq_right (not_lt.mp h1)]

theorem clamp_eq_self {x lo hi : ℝ} (h0 : lo ≤ x) (h1 : x ≤ hi) : clamp x lo hi = x := by
  rw [clamp, if_neg (not_lt.mpr h0), if_neg (not_lt.mpr h1)]

/-- Claim C3: `EvaluateCurve` computes exactly the clamp / `a = 0.5`
short-circuit / negative-discriminant short-circuit / clamped quadratic
described by the specification (and, being a total function, never fails or
diverges). -/
theorem evaluateCurve_eq_claim (a b x : ℝ) :
    EvaluateCurve a b x = EvaluateCurveSpecC3 a b x := by
  simp only [EvaluateCurve, EvaluateCurveSpecC3, clamp_eq_max_min]
  rw [show (-1 + 2 * max 0 (min a 1)) = (2 * max 0 (min a 1) - 1) from by ring]

/-- Claim C9: for `a`, `b` in `[0,1]` with `a` not numerically equal to `0.5`,
`EvaluateCurve a b 0 = 0`: at `x = 0` the discriminant equals `a²` (which is
non-negative), `t` evaluates to `0`, and the clamped result is `0`. -/
theorem evaluateCurve_at_zero (a b : ℝ) (h0a : 0 ≤ a) (h1a : a ≤ 1)
    (h0b : 0 ≤ b) (h1b : b ≤ 1) (hne : ¬ AlmostEquals a 0.5) :
    EvaluateCurve a b 0 = 0 := by
  have hca : clamp a 0 1 = a := clamp_eq_self h0a h1a
  have hcb : clamp b 0 1 = b := clamp_eq_self h0b h1b
  have hcx : clamp (0 : ℝ) 0 1 = 0 := clamp_eq_self le_rfl zero_le_one
  simp only [EvaluateCurve, hca, hcb, hcx]
  rw [if_neg hne]
  rw [show a * a + 0 - 2 * a * 0 = a * a from by ring]
  rw [if_neg (not_lt.mpr (mul_self_nonneg a)), Real.sqrt_mul_self h0a]
  rw [show (a - a) / (-1 + 2 * a) = 0 from by rw [sub_self, zero_div]]
  rw [show (2 : ℝ) * (1 - 0) * 0 * b + 0 * 0 = 0 from by ring]
  exact clamp_eq_self le_rfl zero_le_one

theorem evaluateCurve_at_zero_witness :
    ((0 : ℝ) ≤ 0.2 ∧ (0.2 : ℝ) ≤ 1 ∧ (0 : ℝ) ≤ 0.8 ∧ (0.8 : ℝ) ≤ 1 ∧
        ¬ AlmostEquals 0.2 0.5) ∧
      EvaluateCurve 0.2 0.8 0 = 0 :=
  ⟨⟨by norm_num, by norm_num, by norm_num, by norm_num, by norm_num [AlmostEquals]⟩,
    evaluateCurve_at_zero 0.2 0.8 (by norm_num) (by norm_num) (by norm_num) (by norm_num)
      (by norm_num [AlmostEquals])⟩

/-! ## Claim C6: non-positive subdivision interval is a hard failure -/

/-- Claim C6: for every container (the empty one included) and every
subdivision interval `≤ 0`, each of the three `ExpandCurveSegments` overloads
throws `std::invalid_argument` — an error result distinguishable from any
"undefined value" outcome — and returns no container. -/
theorem expandCurveSegments_nonpositive_error (g : Graph) (gs : GraphSection)
    (ls : LaserSection) (s : Int) (hs : s ≤ 0) :
    ExpandCurveSegments g s = Except.error "subdivisionInterval must be positive" ∧
      ExpandCurveSegmentsSection gs s
        = Except.error "subdivisionInterval must be positive" ∧
      ExpandCurveSegmentsLaser ls s
        = Except.error "subdivisionInterval must be positive" ∧
      (∀ r, ExpandCurveSegments g s ≠ Except.ok r) ∧
      (∀ r, ExpandCurveSegmentsSection gs s ≠ Except.ok r) ∧
      (∀ r, ExpandCurveSegmentsLaser ls s ≠ Except.ok r) := by
  have h1 : ExpandCurveSegments g s = Except.error "subdivisionInterval must be positive" := by
    rw [ExpandCurveSegments, dif_pos hs]
  have h2 : ExpandCurveSegmentsSection gs s
      = Except.error "subdivisionInterval must be positive" := by
    rw [ExpandCurveSegmentsSection, dif_pos hs]
  have h3 : ExpandCurveSegmentsLaser ls s
      = Except.error "subdivisionInterval must be positive" := by
    rw [ExpandCurveSegmentsLaser, dif_pos hs]
  refine ⟨h1, h2, h3, ?_, ?_, ?_⟩
  · intro r hr
    rw [h1] at hr
    exact Except.noConfusion hr
  · intro r hr
    rw [h2] at hr
    exact Except.noConfusion hr
  · intro r hr
    rw [h3] at hr
    exact Except.noConfusion hr

theorem expandCurveSegments_nonpositive_error_witness :
    (0 : Int) ≤ 0 ∧
      (ExpandCurveSegments [] 0 = Except.error "subdivisionInterval must be positive" ∧
        ExpandCurveSegmentsSection (GraphSection.mk []) 0
          = Except.error "subdivisionInterval must be positive" ∧
        ExpandCurveSegmentsLaser (LaserSection.mk [] kLaserXScale1x) 0
          = Except.error "subdivisionInterval must be positive" ∧
        (∀ r, ExpandCurveSegments [] 0 ≠ Except.ok r) ∧
        (∀ r, ExpandCurveSegmentsSection (GraphSection.mk []) 0 ≠ Except.ok r) ∧
        (∀ r, ExpandCurveSegmentsLaser (LaserSection.mk [] kLaserXScale1x) 0
          ≠ Except.ok r)) :=
  ⟨le_refl 0,
    expandCurveSegments_nonpositive_error [] (GraphSection.mk [])
      (LaserSection.mk [] kLaserXScale1x) 0 (le_refl 0)⟩

/-! ## Claims C4 and C8: section-scoped sampling and exact point lookup -/

theorem graphSectionAt_isSome {α : Type} (hd : Int × α) (tl : List (Int × α))
    (pulse : Int) :
    ∃ e, GraphSectionAt (hd :: tl) pulse = some e := by
  have hub := upperBoundIdx_le_length (hd :: tl) pulse
  have hidx :
      (if upperBoundIdx (hd :: tl) pulse ≠ 0 then upperBoundIdx (hd :: tl) pulse - 1
        else upperBoundIdx (hd :: tl) pulse) < (hd :: tl).length := by
    simp only [List.length_cons] at hub ⊢
    split <;> omega
  exact nthEntry_isSome _ _ hidx

/-- Claim C4: `GraphSectionValueAt` reports "no value" exactly when the outer
container is empty, or the governing section found by segment lookup has at
most one point, or the relative pulse `ry = pulse − y` is strictly before the
first point's relative key or at/after the last point's relative key;
otherwise it returns `GraphValueAt` of the section's internal timeline at
`ry`; and `GraphSectionValueAtWithDefault` returns the caller-supplied default
exactly in the "no value" cases and the same value otherwise. -/
theorem graphSectionValueAt_spec {GS : Type} [HasGraphV GS]
    (graphSections : List (Int × GS)) (pulse : Int) (d : ℝ) :
    (GraphSectionValueAt graphSections pulse = none ↔
      graphSections = [] ∨
        ∃ y sec, GraphSectionAt graphSections pulse = some (y, sec) ∧
          ((HasGraphV.v sec).length ≤ 1 ∨
            ∃ f l, (HasGraphV.v sec).head? = some f ∧
              (HasGraphV.v sec).getLast? = some l ∧
              (pulse - y < f.1 ∨ l.1 ≤ pulse - y))) ∧
    (∀ y sec f l, GraphSectionAt graphSections pulse = some (y, sec) →
      2 ≤ (HasGraphV.v sec).length →
      (HasGraphV.v sec).head? = some f → (HasGraphV.v sec).getLast? = some l →
      f.1 ≤ pulse - y → pulse - y < l.1 →
      GraphSectionValueAt graphSections pulse
        = some (GraphValueAt (HasGraphV.v sec) (pulse - y))) ∧
    (GraphSectionValueAt graphSections pulse = none →
      GraphSectionValueAtWithDefault graphSections pulse d = d) ∧
    (∀ x, GraphSectionValueAt graphSections pulse = some x →
      GraphSectionValueAtWithDefault graphSections pulse d = x) := by
  have hwd : ∀ l : List (Int × GS),
      (GraphSectionValueAt l pulse = none →
        GraphSectionValueAtWithDefault l pulse d = d) ∧
      (∀ x, GraphSectionValueAt l pulse = some x →
        GraphSectionValueAtWithDefault l pulse d = x) := by
    intro l
    constructor
    · intro h
      rw [GraphSectionValueAtWithDefault, h]
    · intro x h
      rw [GraphSectionValueAtWithDefault, h]
  cases graphSections with
  | nil =>
    refine ⟨?_, ?_, (hwd []).1, (hwd []).2⟩
    · simp [GraphSectionValueAt]
    · intro y sec f l hat
      simp [GraphSectionAt, upperBoundIdx, nthEntry] at hat
  | cons hd tl =>
    obtain ⟨⟨y₀, sec₀⟩, hat₀⟩ := graphSectionAt_isSome hd tl pulse
    refine ⟨?_, ?_, (hwd (hd :: tl)).1, (hwd (hd :: tl)).2⟩
    · rw [GraphSectionValueAt]
      rw [hat₀]
      simp only [List.isEmpty_cons, Bool.false_eq_true, if_false]
      by_cases hlen : (HasGraphV.v sec₀).length ≤ 1
      · simp only [hlen, if_true]
        constructor
        · intro _
          exact Or.inr ⟨y₀, sec₀, rfl, Or.inl hlen⟩
        · intro _
          trivial
      · simp only [hlen, if_false]
        cases hsv : HasGraphV.v sec₀ with
        | nil =>
          rw [hsv] at hlen
          simp at hlen
        | cons f₀ rest =>
          obtain ⟨fry, fv⟩ := f₀
          obtain ⟨l₀, hlast⟩ : ∃ l₀, ((fry, fv) :: rest).getLast? = some l₀ := by
            cases hrev : ((fry, fv) :: rest).getLast? with
            | some l₀ => exact ⟨l₀, rfl⟩
            | none => simp [List.getLast?_eq_none_iff] at hrev
          obtain ⟨lry, lv⟩ := l₀
          rw [List.head?_cons, hlast]
          by_cases hf : pulse - y₀ < fry
          · simp only [hf, if_true]
            constructor
            · intro _
              refine Or.inr ⟨y₀, sec₀, rfl, Or.inr ⟨(fry, fv), (lry, lv), ?_, ?_, Or.inl hf⟩⟩
              · rw [hsv, List.head?_cons]
              · rw [hsv, hlast]
            · intro _
              trivial
          · simp only [hf, if_false]
            by_cases hl : lry ≤ pulse - y₀
            · simp only [hl, if_true]
              constructor
              · intro _
                refine Or.inr ⟨y₀, sec₀, rfl, Or.inr ⟨(fry, fv), (lry, lv), ?_, ?_, Or.inr hl⟩⟩
                · rw [hsv, List.head?_cons]
                · rw [hsv, hlast]
              · intro _
                trivial
            · simp only [hl, if_false]
              constructor
              · intro hsome
                exact Option.noConfusion hsome
              · intro hrhs
                exfalso
                rcases hrhs with hrhs | ⟨y, sec, hat, hcond⟩
                · exact List.cons_ne_nil hd tl hrhs
                · obtain ⟨hy, hsec⟩ := Prod.mk.injEq .. ▸ Option.some.inj hat
                  subst hy
                  subst hsec
                  rcases hcond with hcond | ⟨f, l, hh, hlst, hbound⟩
                  · exact hlen hcond
                  · rw [hsv, List.head?_cons] at hh
                    rw [hsv, hlast] at hlst
                    obtain rfl : f = (fry, fv) := Option.some.inj hh.symm
                    obtain rfl : l = (lry, lv) := Option.some.inj hlst.symm
                    rcases hbound with hbound | hbound
                    · exact hf hbound
                    · exact hl hbound
    · intro y sec f l hat hlen2 hh hlst hfb hlb
      rw [hat₀] at hat
      obtain ⟨hy, hsec⟩ := Prod.mk.injEq .. ▸ Option.some.inj hat
      subst hy
      subst hsec
      obtain ⟨fry, fv⟩ := f
      obtain ⟨lry, lv⟩ := l
      rw [GraphSectionValueAt]
      rw [hat₀]
      simp only [List.isEmpty_cons, Bool.false_eq_true, if_false]
      have hlen : ¬ (HasGraphV.v sec₀).length ≤ 1 := by omega
      simp only [hlen, if_false, hh, hlst]
      rw [if_neg (not_lt.mpr hfb), if_neg (not_le.mpr hlb)]

/-- Claim C8: `GraphPointAt` returns exactly the point stored in the governing
section (resolved by segment lookup) at relative key `pulse − y`, unchanged
and without interpolation, and returns "none" exactly when the outer container
is empty or no point exists at that exact relative key. -/
theorem graphPointAt_spec {GS : Type} [HasGraphV GS]
    (graphSections : List (Int × GS)) (pulse : Int) :
    (GraphPointAt graphSections pulse = none ↔
      graphSections = [] ∨
        ∃ y sec, GraphSectionAt graphSections pulse = some (y, sec) ∧
          lookupEntry (HasGraphV.v sec) (pulse - y) = none) ∧
    (∀ pt, GraphPointAt graphSections pulse = some pt ↔
      graphSections ≠ [] ∧
        ∃ y sec, GraphSectionAt graphSections pulse = some (y, sec) ∧
          lookupEntry (HasGraphV.v sec) (pulse - y) = some pt) := by
  cases graphSections with
  | nil =>
    constructor
    · simp [GraphPointAt]
    · intro pt
      simp [GraphPointAt]
  | cons hd tl =>
    obtain ⟨⟨y₀, sec₀⟩, hat₀⟩ := graphSectionAt_isSome hd tl pulse
    have hform : GraphPointAt (hd :: tl) pulse
        = match lookupEntry (HasGraphV.v sec₀) (pulse - y₀) with
          | none => none
          | some p => some p := by
      rw [GraphPointAt]
      rw [hat₀]
      simp only [List.isEmpty_cons, Bool.false_eq_true, if_false]
    constructor
    · rw [hform]
      cases hlk : lookupEntry (HasGraphV.v sec₀) (pulse - y₀) with
      | none =>
        simp only []
        constructor
        · intro _
          exact Or.inr ⟨y₀, sec₀, hat₀, hlk⟩
        · intro _
          trivial
      | some p =>
        simp only []
        constructor
        · intro hsome
          exact Option.noConfusion hsome
        · intro hrhs
          exfalso
          rcases hrhs with hrhs | ⟨y, sec, hat, hcond⟩
          · exact List.cons_ne_nil hd tl hrhs
          · rw [hat₀] at hat
            obtain ⟨hy, hsec⟩ := Prod.mk.injEq .. ▸ Option.some.inj hat
            subst hy
            subst hsec
            rw [hlk] at hcond
            exact Option.noConfusion hcond
    · intro pt
      rw [hform]
      cases hlk : lookupEntry (HasGraphV.v sec₀) (pulse - y₀) with
      | none =>
        simp only []
        constructor
        · intro hnone
          exact absurd hnone.symm (Option.some_ne_none pt)
        · intro ⟨hne, y, sec, hat, hcond⟩
          exfalso
          rw [hat₀] at hat
          obtain ⟨hy, hsec⟩ := Prod.mk.injEq .. ▸ Option.some.inj hat
          subst hy
          subst hsec
          rw [hlk] at hcond
          exact Option.noConfusion hcond
      | some p =>
        simp only []
        constructor
        · intro hsome
          refine ⟨List.cons_ne_nil hd tl, y₀, sec₀, hat₀, ?_⟩
          rw [hlk]
          exact hsome
        · intro ⟨hne, y, sec, hat, hcond⟩
          rw [hat₀] at hat
          obtain ⟨hy, hsec⟩ := Prod.mk.injEq .. ▸ Option.some.inj hat
          subst hy
          subst hsec
          rw [hlk] at hcond
          exact hcond

/-! ## Structural lemmas for the expansion loops -/

theorem interPoint_isLinear (p1 p2 : GraphPoint) (L ry : Int) :
    (interPoint p1 p2 L ry).curve.isLinear :=
  ⟨rfl, rfl⟩

theorem interPoint_of_not_linear (p1 p2 : GraphPoint) (L ry : Int)
    (hc : ¬ p1.curve.isLinear) :
    interPoint p1 p2 L ry =
      ⟨⟨lerp p1.v.vf p2.v.v
          (EvaluateCurve p1.curve.a p1.curve.b (((ry : Int) : ℝ) / ((L : Int) : ℝ))),
        lerp p1.v.vf p2.v.v
          (EvaluateCurve p1.curve.a p1.curve.b (((ry : Int) : ℝ) / ((L : Int) : ℝ)))⟩,
        ⟨0, 0⟩⟩ := by
  simp only [interPoint, EvaluateCurveValue, if_neg hc]

theorem setEntry_append {α : Type} :
    ∀ (l : List (Int × α)) (k : Int) (v : α),
      (∀ e ∈ l, e.1 < k) → setEntry l k v = l ++ [(k, v)]
  | [], _, _, _ => rfl
  | (k0, v0) :: rest, k, v, h => by
    have hk0 : k0 < k := h (k0, v0) (List.mem_cons_self _ _)
    simp only [setEntry, if_neg (not_lt.mpr hk0.le), if_neg (ne_of_gt hk0)]
    rw [setEntry_append rest k v (fun e he => h e (List.mem_cons_of_mem _ he))]
    rfl

theorem insertEntry_append {α : Type} :
    ∀ (l : List (Int × α)) (k : Int) (v : α),
      (∀ e ∈ l, e.1 < k) → insertEntry l k v = l ++ [(k, v)]
  | [], _, _, _ => rfl
  | (k0, v0) :: rest, k, v, h => by
    have hk0 : k0 < k := h (k0, v0) (List.mem_cons_self _ _)
    simp only [insertEntry, if_neg (not_lt.mpr hk0.le), if_neg (ne_of_gt hk0)]
    rw [insertEntry_append rest k v (fun e he => h e (List.mem_cons_of_mem _ he))]
    rfl

theorem subdivBlock_nil (s : Int) (hs : 0 < s) (L y1 : Int) (p1 p2 : GraphPoint)
    (ry : Int) (h : ¬ ry < L) :
    subdivBlock s hs L y1 p1 p2 ry = [] := by
  rw [subdivBlock.eq_def, dif_neg h]

theorem subdivLoop_eq (s : Int) (hs : 0 < s) (L y1 : Int) (p1 p2 : GraphPoint)
    (ry : Int) (result : Graph) (hkeys : ∀ e ∈ result, e.1 < y1 + ry) :
    subdivLoop s hs L y1 p1 p2 ry result
      = result ++ subdivBlock s hs L y1 p1 p2 ry := by
  rw [subdivLoop.eq_def, subdivBlock.eq_def]
  by_cases h : ry < L
  · rw [dif_pos h, dif_pos h]
    rw [setEntry_append result (y1 + ry) (interPoint p1 p2 L ry) hkeys]
    have hkeys' : ∀ e ∈ result ++ [(y1 + ry, interPoint p1 p2 L ry)],
        e.1 < y1 + (ry + s) := by
      intro e he
      rcases List.mem_append.mp he with he | he
      · refine lt_trans (hkeys e he) (add_lt_add_left ?_ y1)
        omega
      · rw [List.mem_singleton.mp he]
        show y1 + ry < y1 + (ry + s)
        omega
    rw [subdivLoop_eq s hs L y1 p1 p2 (ry + s)
      (result ++ [(y1 + ry, interPoint p1 p2 L ry)]) hkeys']
    simp
  · rw [dif_neg h, dif_neg h, List.append_nil]
termination_by (L - ry).toNat
decreasing_by
  omega

theorem subdivBlock_keys (s : Int) (hs : 0 < s) (L y1 : Int) (p1 p2 : GraphPoint)
    (ry : Int) :
    ∀ e ∈ subdivBlock s hs L y1 p1 p2 ry, y1 + ry ≤ e.1 ∧ e.1 < y1 + L := by
  rw [subdivBlock.eq_def]
  by_cases h : ry < L
  · rw [dif_pos h]
    intro e he
    rcases List.mem_cons.mp he with he | he
    · rw [he]
      refine ⟨le_refl _, ?_⟩
      show y1 + ry < y1 + L
      omega
    · have := subdivBlock_keys s hs L y1 p1 p2 (ry + s) e he
      constructor
      · omega
      · exact this.2
  · rw [dif_neg h]
    intro e he
    cases he
termination_by (L - ry).toNat
decreasing_by
  omega

theorem subdivBlock_linear (s : Int) (hs : 0 < s) (L y1 : Int) (p1 p2 : GraphPoint)
    (ry : Int) :
    ∀ e ∈ subdivBlock s hs L y1 p1 p2 ry, e.2.curve.isLinear := by
  rw [subdivBlock.eq_def]
  by_cases h : ry < L
  · rw [dif_pos h]
    intro e he
    rcases List.mem_cons.mp he with he | he
    · rw [he]
      exact interPoint_isLinear p1 p2 L ry
    · exact subdivBlock_linear s hs L y1 p1 p2 (ry + s) e he
  · rw [dif_neg h]
    intro e he
    cases he
termination_by (L - ry).toNat
decreasing_by
  omega

theorem subdivBlock_mem (s : Int) (hs : 0 < s) (L y1 : Int) (p1 p2 : GraphPoint) :
    ∀ (m : Nat) (ry : Int), ry + (m : Int) * s < L →
      (y1 + (ry + (m : Int) * s), interPoint p1 p2 L (ry + (m : Int) * s))
        ∈ subdivBlock s hs L y1 p1 p2 ry := by
  intro m
  induction m with
  | zero =>
    intro ry hlt
    simp only [Nat.cast_zero, zero_mul, add_zero] at hlt ⊢
    rw [subdivBlock.eq_def, dif_pos hlt]
    exact List.mem_cons_self _ _
  | succ n ih =>
    intro ry hlt
    have hpos : (0 : Int) < ((n : Int) + 1) * s := by positivity
    have hry : ry < L := by
      have : ((n : Nat) + 1 : Nat) = (n + 1 : Nat) := rfl
      push_cast at hlt
      nlinarith
    rw [subdivBlock.eq_def, dif_pos hry]
    have harith : ry + ((n : Nat) + 1 : Nat) * s = (ry + s) + (n : Int) * s := by
      push_cast
      ring
    rw [harith]
    refine List.mem_cons_of_mem _ (ih (ry + s) ?_)
    omega

theorem subdivBlock_chain_lt (s : Int) (hs : 0 < s) (L y1 : Int)
    (p1 p2 : GraphPoint) (y2 : Int) (q : GraphPoint) (tail : Graph)
    (htail : List.Chain (fun a b : Int × GraphPoint => a.1 < b.1) (y2, q) tail)
    (hL : y1 + L ≤ y2) :
    ∀ (ry : Int) (c : Int × GraphPoint), c.1 < y1 + ry → c.1 < y2 →
      List.Chain (fun a b : Int × GraphPoint => a.1 < b.1) c
        (subdivBlock s hs L y1 p1 p2 ry ++ (y2, q) :: tail) := by
  intro ry c hc1 hc2
  rw [subdivBlock.eq_def]
  by_cases h : ry < L
  · rw [dif_pos h]
    rw [List.cons_append]
    refine List.Chain.cons hc1 ?_
    refine subdivBlock_chain_lt s hs L y1 p1 p2 y2 q tail htail hL (ry + s)
      (y1 + ry, interPoint p1 p2 L ry) ?_ ?_
    · show y1 + ry < y1 + (ry + s)
      omega
    · show y1 + ry < y2
      omega
  · rw [dif_neg h, List.nil_append]
    exact List.Chain.cons hc2 htail
termination_by ry => (L - ry).toNat
decreasing_by
  omega

theorem subdivBlock_chain_good (s : Int) (hs : 0 < s) (L y1 : Int)
    (p1 p2 : GraphPoint) (y2 : Int) (q : GraphPoint) (tail : Graph)
    (htail : List.Chain (goodPair s) (y2, q) tail) :
    ∀ (ry : Int) (c : Int × GraphPoint),
      (ry < L → goodPair s c (y1 + ry, interPoint p1 p2 L ry)) →
      (¬ ry < L → goodPair s c (y2, q)) →
      List.Chain (goodPair s) c
        (subdivBlock s hs L y1 p1 p2 ry ++ (y2, q) :: tail) := by
  intro ry c hc1 hc2
  rw [subdivBlock.eq_def]
  by_cases h : ry < L
  · rw [dif_pos h]
    rw [List.cons_append]
    refine List.Chain.cons (hc1 h) ?_
    refine subdivBlock_chain_good s hs L y1 p1 p2 y2 q tail htail (ry + s)
      (y1 + ry, interPoint p1 p2 L ry) ?_ ?_
    · intro _
      exact Or.inl (interPoint_isLinear p1 p2 L ry)
    · intro _
      exact Or.inl (interPoint_isLinear p1 p2 L ry)
  · rw [dif_neg h, List.nil_append]
    exact List.Chain.cons (hc2 h) htail
termination_by ry => (L - ry).toNat
decreasing_by
  omega

theorem expandFlat_mem_orig (s : Int) (hs : 0 < s) :
    ∀ (rest : Graph) (prev e : Int × GraphPoint),
      e ∈ rest → e ∈ expandFlat s hs prev rest := by
  intro rest
  induction rest with
  | nil =>
    intro prev e he
    cases he
  | cons hd tl ih =>
    intro prev e he
    obtain ⟨y1, p1⟩ := prev
    obtain ⟨y2, p2⟩ := hd
    simp only [expandFlat]
    by_cases hlin : p1.curve.isLinear
    · rw [if_pos hlin]
      rcases List.mem_cons.mp he with he | he
      · rw [he]
        exact List.mem_cons_self _ _
      · exact List.mem_cons_of_mem _ (ih (y2, p2) e he)
    · rw [if_neg hlin]
      refine List.mem_append_right _ ?_
      rcases List.mem_cons.mp he with he | he
      · rw [he]
        exact List.mem_cons_self _ _
      · exact List.mem_cons_of_mem _ (ih (y2, p2) e he)

theorem expandFlat_mem_mono (s : Int) (hs : 0 < s) (k1 : Int) (p1 : GraphPoint)
    (rest2 : Graph) (e : Int × GraphPoint) :
    ∀ (l₁ : Graph) (prev : Int × GraphPoint),
      e ∈ expandFlat s hs (k1, p1) rest2 →
      e ∈ expandFlat s hs prev (l₁ ++ (k1, p1) :: rest2) := by
  intro l₁
  induction l₁ with
  | nil =>
    intro prev he
    obtain ⟨ya, pa⟩ := prev
    rw [List.nil_append]
    simp only [expandFlat]
    by_cases hlin : pa.curve.isLinear
    · rw [if_pos hlin]
      exact List.mem_cons_of_mem _ he
    · rw [if_neg hlin]
      exact List.mem_append_right _ (List.mem_cons_of_mem _ he)
  | cons a l₁x ih =>
    intro prev he
    obtain ⟨ya, pa⟩ := prev
    obtain ⟨yb, pb⟩ := a
    rw [List.cons_append]
    simp only [expandFlat]
    by_cases hlin : pa.curve.isLinear
    · rw [if_pos hlin]
      exact List.mem_cons_of_mem _ (ih (yb, pb) he)
    · rw [if_neg hlin]
      exact List.mem_append_right _ (List.mem_cons_of_mem _ (ih (yb, pb) he))

theorem expandFlat_block_sub (s : Int) (hs : 0 < s) (k1 k2 : Int)
    (p1 p2 : GraphPoint) (l₂ : Graph) (hc : ¬ p1.curve.isLinear)
    (e : Int × GraphPoint) (he : e ∈ subdivBlock s hs (k2 - k1) k1 p1 p2 s) :
    e ∈ expandFlat s hs (k1, p1) ((k2, p2) :: l₂) := by
  simp only [expandFlat]
  rw [if_neg hc]
  exact List.mem_append_left _ he

theorem expandFlat_chain_lt (s : Int) (hs : 0 < s) :
    ∀ (rest : Graph) (prev : Int × GraphPoint),
      List.Chain (fun a b : Int × GraphPoint => a.1 < b.1) prev rest →
      List.Chain (fun a b : Int × GraphPoint => a.1 < b.1) prev
        (expandFlat s hs prev rest) := by
  intro rest
  induction rest with
  | nil =>
    intro prev _
    exact List.Chain.nil
  | cons hd tl ih =>
    intro prev hchain
    obtain ⟨y1, p1⟩ := prev
    obtain ⟨y2, p2⟩ := hd
    cases hchain with
    | cons hab hchain' =>
      simp only [expandFlat]
      by_cases hlin : p1.curve.isLinear
      · rw [if_pos hlin]
        exact List.Chain.cons hab (ih (y2, p2) hchain')
      · rw [if_neg hlin]
        refine subdivBlock_chain_lt s hs (y2 - y1) y1 p1 p2 y2 p2 _
          (ih (y2, p2) hchain') (by omega) s (y1, p1) ?_ ?_
        · show y1 < y1 + s
          omega
        · exact hab

theorem expandFlat_chain_good (s : Int) (hs : 0 < s) :
    ∀ (rest : Graph) (prev : Int × GraphPoint),
      List.Chain (goodPair s) prev (expandFlat s hs prev rest) := by
  intro rest
  induction rest with
  | nil =>
    intro prev
    exact List.Chain.nil
  | cons hd tl ih =>
    intro prev
    obtain ⟨y1, p1⟩ := prev
    obtain ⟨y2, p2⟩ := hd
    simp only [expandFlat]
    by_cases hlin : p1.curve.isLinear
    · rw [if_pos hlin]
      exact List.Chain.cons (Or.inl hlin) (ih (y2, p2))
    · rw [if_neg hlin]
      refine subdivBlock_chain_good s hs (y2 - y1) y1 p1 p2 y2 p2 _
        (ih (y2, p2)) s (y1, p1) ?_ ?_
      · intro _
        refine Or.inr ?_
        show y1 + s - y1 ≤ s
        omega
      · intro hnot
        refine Or.inr ?_
        show y2 - y1 ≤ s
        omega

theorem expandFlat_eq_of_good (s : Int) (hs : 0 < s) :
    ∀ (rest : Graph) (prev : Int × GraphPoint),
      List.Chain (goodPair s) prev rest →
      expandFlat s hs prev rest = rest := by
  intro rest
  induction rest with
  | nil =>
    intro prev _
    simp only [expandFlat]
  | cons hd tl ih =>
    intro prev hchain
    obtain ⟨y1, p1⟩ := prev
    obtain ⟨y2, p2⟩ := hd
    cases hchain with
    | cons hab hchain' =>
      simp only [expandFlat]
      by_cases hlin : p1.curve.isLinear
      · rw [if_pos hlin, ih (y2, p2) hchain']
      · rw [if_neg hlin]
        have hab' : p1.curve.isLinear ∨ y2 - y1 ≤ s := hab
        have hgap : y2 - y1 ≤ s := by
          rcases hab' with hab' | hab'
          · exact absurd hab' hlin
          · exact hab'
        rw [subdivBlock_nil s hs (y2 - y1) y1 p1 p2 s (by omega), List.nil_append,
          ih (y2, p2) hchain']

theorem chain_good_of_all_linear (s : Int) :
    ∀ (rest : Graph) (prev : Int × GraphPoint),
      prev.2.curve.isLinear → (∀ e ∈ rest, e.2.curve.isLinear) →
      List.Chain (goodPair s) prev rest := by
  intro rest
  induction rest with
  | nil =>
    intro prev _ _
    exact List.Chain.nil
  | cons hd tl ih =>
    intro prev hprev hall
    refine List.Chain.cons (Or.inl hprev) ?_
    exact ih hd (hall hd (List.mem_cons_self _ _))
      (fun e he => hall e (List.mem_cons_of_mem _ he))

theorem expandLoop_eq (s : Int) (hs : 0 < s) :
    ∀ (rest : Graph) (prev : Int × GraphPoint) (result : Graph),
      (∀ e ∈ result, e.1 ≤ prev.1) →
      List.Chain (fun a b : Int × GraphPoint => a.1 < b.1) prev rest →
      expandLoop s hs prev rest result = result ++ expandFlat s hs prev rest := by
  intro rest
  induction rest with
  | nil =>
    intro prev result _ _
    simp only [expandLoop, expandFlat, List.append_nil]
  | cons hd tl ih =>
    intro prev result hkeys hchain
    obtain ⟨y1, p1⟩ := prev
    obtain ⟨y2, p2⟩ := hd
    cases hchain with
    | cons hab hchain' =>
      have hlt : y1 < y2 := hab
      simp only [expandLoop, expandFlat]
      by_cases hlin : p1.curve.isLinear
      · rw [if_pos hlin, if_pos hlin]
        rw [insertEntry_append result y2 p2
          (fun e he => lt_of_le_of_lt (hkeys e he) hlt)]
        have hk1 : ∀ e ∈ result ++ [(y2, p2)], e.1 ≤ (y2, p2).1 := by
          intro e he
          rcases List.mem_append.mp he with he | he
          · exact le_trans (hkeys e he) hlt.le
          · rw [List.mem_singleton.mp he]
        rw [ih (y2, p2) (result ++ [(y2, p2)]) hk1 hchain']
        simp
      · rw [if_neg hlin, if_neg hlin]
        rw [subdivLoop_eq s hs (y2 - y1) y1 p1 p2 s result
          (fun e he => lt_of_le_of_lt (hkeys e he) (lt_add_of_pos_right y1 hs))]
        have hblockkeys : ∀ e ∈ subdivBlock s hs (y2 - y1) y1 p1 p2 s, e.1 < y2 := by
          intro e he
          have hb := (subdivBlock_keys s hs (y2 - y1) y1 p1 p2 s e he).2
          have harith : y1 + (y2 - y1) = y2 := by ring
          rw [harith] at hb
          exact hb
        rw [insertEntry_append (result ++ subdivBlock s hs (y2 - y1) y1 p1 p2 s) y2 p2 ?k3]
        case k3 =>
          intro e he
          rcases List.mem_append.mp he with he | he
          · exact lt_of_le_of_lt (hkeys e he) hlt
          · exact hblockkeys e he
        have hk4 : ∀ e ∈ result ++ subdivBlock s hs (y2 - y1) y1 p1 p2 s ++ [(y2, p2)],
            e.1 ≤ (y2, p2).1 := by
          intro e he
          rcases List.mem_append.mp he with he | he
          · rcases List.mem_append.mp he with he | he
            · exact le_trans (hkeys e he) hlt.le
            · exact (hblockkeys e he).le
          · rw [List.mem_singleton.mp he]
        rw [ih (y2, p2) (result ++ subdivBlock s hs (y2 - y1) y1 p1 p2 s ++ [(y2, p2)])
          hk4 hchain']
        simp

theorem expandCurveSegments_ok_nil (s : Int) (hs : 0 < s) :
    ExpandCurveSegments [] s = Except.ok [] := by
  unfold ExpandCurveSegments
  rw [dif_neg (not_le.mpr hs)]

theorem expandCurveSegments_ok_cons (s : Int) (hs : 0 < s) (y1 : Int)
    (p1 : GraphPoint) (tl : Graph)
    (hchain : List.Chain (fun a b : Int × GraphPoint => a.1 < b.1) (y1, p1) tl) :
    ExpandCurveSegments ((y1, p1) :: tl) s
      = Except.ok ((y1, p1) :: expandFlat s hs (y1, p1) tl) := by
  unfold ExpandCurveSegments
  rw [dif_neg (not_le.mpr hs)]
  have hres : insertEntry ([] : Graph) y1 p1 = [(y1, p1)] := rfl
  have hk : ∀ e ∈ [(y1, p1)], e.1 ≤ (y1, p1).1 := by
    intro e he
    rw [List.mem_singleton.mp he]
  simp only [hres]
  rw [expandLoop_eq s _ tl (y1, p1) [(y1, p1)] hk hchain]
  rfl

theorem lookupEntry_of_chain {α : Type} :
    ∀ (l : List (Int × α)) (k : Int) (p : α),
      List.Chain' (fun a b : Int × α => a.1 < b.1) l → (k, p) ∈ l →
      lookupEntry l k = some p := by
  intro l
  induction l with
  | nil =>
    intro k p _ hm
    cases hm
  | cons hd tl ih =>
    intro k p hsort hm
    obtain ⟨k0, v0⟩ := hd
    rcases List.mem_cons.mp hm with hm | hm
    · have hk : k = k0 := congrArg Prod.fst hm
      have hv : p = v0 := congrArg Prod.snd hm
      subst hk
      subst hv
      simp [lookupEntry]
    · have hlt : k0 < k :=
        chain_lt_of_mem (e := (k0, v0)) hsort (k, p) hm
      simp only [lookupEntry, if_neg (ne_of_gt hlt)]
      exact ih k p hsort.tail hm

/-! ## Claims C7, C10 and C2: curve expansion -/

/-- Claim C7: expanding a container in which every point's outgoing curve is
the linear sentinel returns the container unchanged: no points are inserted,
removed or changed. -/
theorem expandCurveSegments_all_linear (g : Graph) (s : Int) (hs : 0 < s)
    (hsort : List.Chain' (fun a b : Int × GraphPoint => a.1 < b.1) g)
    (hlin : ∀ e ∈ g, e.2.curve.isLinear) :
    ExpandCurveSegments g s = Except.ok g := by
  cases g with
  | nil => exact expandCurveSegments_ok_nil s hs
  | cons hd tl =>
    obtain ⟨y1, p1⟩ := hd
    rw [expandCurveSegments_ok_cons s hs y1 p1 tl hsort]
    rw [expandFlat_eq_of_good s hs tl (y1, p1)
      (chain_good_of_all_linear s tl (y1, p1) (hlin _ (List.mem_cons_self _ _))
        (fun e he => hlin e (List.mem_cons_of_mem _ he)))]

theorem expandCurveSegments_all_linear_witness :
    ((0 : Int) < 25 ∧
      List.Chain' (fun a b : Int × GraphPoint => a.1 < b.1)
        [((0 : Int), GraphPoint.mk (GraphValue.mk 1 1) (GraphCurveValue.mk 0 0)),
          ((100 : Int), GraphPoint.mk (GraphValue.mk 2 2) (GraphCurveValue.mk 0 0))] ∧
      (∀ e ∈ [((0 : Int), GraphPoint.mk (GraphValue.mk 1 1) (GraphCurveValue.mk 0 0)),
          ((100 : Int), GraphPoint.mk (GraphValue.mk 2 2) (GraphCurveValue.mk 0 0))],
        e.2.curve.isLinear)) ∧
    ExpandCurveSegments
        [((0 : Int), GraphPoint.mk (GraphValue.mk 1 1) (GraphCurveValue.mk 0 0)),
          ((100 : Int), GraphPoint.mk (GraphValue.mk 2 2) (GraphCurveValue.mk 0 0))] 25
      = Except.ok
          [((0 : Int), GraphPoint.mk (GraphValue.mk 1 1) (GraphCurveValue.mk 0 0)),
            ((100 : Int), GraphPoint.mk (GraphValue.mk 2 2) (GraphCurveValue.mk 0 0))] := by
  have hsort : List.Chain' (fun a b : Int × GraphPoint => a.1 < b.1)
      [((0 : Int), GraphPoint.mk (GraphValue.mk 1 1) (GraphCurveValue.mk 0 0)),
        ((100 : Int), GraphPoint.mk (GraphValue.mk 2 2) (GraphCurveValue.mk 0 0))] :=
    List.Chain.cons (by norm_num) List.Chain.nil
  have hlin : ∀ e ∈ [((0 : Int), GraphPoint.mk (GraphValue.mk 1 1) (GraphCurveValue.mk 0 0)),
      ((100 : Int), GraphPoint.mk (GraphValue.mk 2 2) (GraphCurveValue.mk 0 0))],
      e.2.curve.isLinear := by
    intro e he
    rcases List.mem_cons.mp he with he | he
    · rw [he]
      exact ⟨rfl, rfl⟩
    · rcases List.mem_cons.mp he with he | he
      · rw [he]
        exact ⟨rfl, rfl⟩
      · cases he
  exact ⟨⟨by norm_num, hsort, hlin⟩,
    expandCurveSegments_all_linear _ 25 (by norm_num) hsort hlin⟩

/-- Claim C10: expansion is idempotent for a fixed positive subdivision
interval: expanding the expansion returns it unchanged, because every inserted
point carries the linear sentinel and every curved point in the output is
followed within `s` pulses, so a second pass inserts nothing. -/
theorem expandCurveSegments_idem (g : Graph) (s : Int) (hs : 0 < s)
    (hsort : List.Chain' (fun a b : Int × GraphPoint => a.1 < b.1) g) :
    ∃ r, ExpandCurveSegments g s = Except.ok r ∧
      ExpandCurveSegments r s = Except.ok r := by
  cases g with
  | nil => exact ⟨[], expandCurveSegments_ok_nil s hs, expandCurveSegments_ok_nil s hs⟩
  | cons hd tl =>
    obtain ⟨y1, p1⟩ := hd
    have hchain : List.Chain (fun a b : Int × GraphPoint => a.1 < b.1) (y1, p1) tl := hsort
    refine ⟨(y1, p1) :: expandFlat s hs (y1, p1) tl,
      expandCurveSegments_ok_cons s hs y1 p1 tl hchain, ?_⟩
    have hchain2 : List.Chain (fun a b : Int × GraphPoint => a.1 < b.1) (y1, p1)
        (expandFlat s hs (y1, p1) tl) := expandFlat_chain_lt s hs tl (y1, p1) hchain
    rw [expandCurveSegments_ok_cons s hs y1 p1 (expandFlat s hs (y1, p1) tl) hchain2]
    rw [expandFlat_eq_of_good s hs (expandFlat s hs (y1, p1) tl) (y1, p1)
      (expandFlat_chain_good s hs tl (y1, p1))]

theorem expandCurveSegments_idem_witness :
    ((0 : Int) < 25 ∧
      List.Chain' (fun a b : Int × GraphPoint => a.1 < b.1)
        [((0 : Int), GraphPoint.mk (GraphValue.mk 1 1) (GraphCurveValue.mk 0.2 0.8)),
          ((100 : Int), GraphPoint.mk (GraphValue.mk 2 2) (GraphCurveValue.mk 0 0))]) ∧
    ∃ r,
      ExpandCurveSegments
          [((0 : Int), GraphPoint.mk (GraphValue.mk 1 1) (GraphCurveValue.mk 0.2 0.8)),
            ((100 : Int), GraphPoint.mk (GraphValue.mk 2 2) (GraphCurveValue.mk 0 0))] 25
        = Except.ok r ∧
      ExpandCurveSegments r 25 = Except.ok r := by
  have hsort : List.Chain' (fun a b : Int × GraphPoint => a.1 < b.1)
      [((0 : Int), GraphPoint.mk (GraphValue.mk 1 1) (GraphCurveValue.mk 0.2 0.8)),
        ((100 : Int), GraphPoint.mk (GraphValue.mk 2 2) (GraphCurveValue.mk 0 0))] :=
    List.Chain.cons (by norm_num) List.Chain.nil
  exact ⟨⟨by norm_num, hsort⟩, expandCurveSegments_idem _ 25 (by norm_num) hsort⟩

/-- Claim C2: for every container with a curved segment between consecutive
points `(k1, p1)` and `(k2, p2)` and every positive `s`, the expansion's
result holds, at each key `k1 + ry` for `ry = s, 2s, …` while `ry < k2 − k1`,
exactly the point whose two value fields both equal
`lerp(p1.vf, p2.v, EvaluateCurve(p1.curve.a, p1.curve.b, ry/(k2 − k1)))` and
whose curve descriptor is the linear sentinel; the result is sorted with
unique keys (so each such key holds exactly one point), and every original
point of the input is present unchanged under its own key. -/
theorem expandCurveSegments_curved (g : Graph) (s : Int) (hs : 0 < s)
    (hsort : List.Chain' (fun a b : Int × GraphPoint => a.1 < b.1) g)
    (l₁ l₂ : Graph) (k1 k2 : Int) (p1 p2 : GraphPoint)
    (hg : g = l₁ ++ (k1, p1) :: (k2, p2) :: l₂)
    (hc : ¬ p1.curve.isLinear) :
    ∃ r, ExpandCurveSegments g s = Except.ok r ∧
      List.Chain' (fun a b : Int × GraphPoint => a.1 < b.1) r ∧
      (∀ e ∈ g, lookupEntry r e.1 = some e.2) ∧
      (∀ m : Nat, ((m : Int) + 1) * s < k2 - k1 →
        lookupEntry r (k1 + ((m : Int) + 1) * s)
          = some (GraphPoint.mk
              (GraphValue.mk
                (lerp p1.v.vf p2.v.v
                  (EvaluateCurve p1.curve.a p1.curve.b
                    (((((m : Int) + 1) * s : Int) : ℝ) / ((k2 - k1 : Int) : ℝ))))
                (lerp p1.v.vf p2.v.v
                  (EvaluateCurve p1.curve.a p1.curve.b
                    (((((m : Int) + 1) * s : Int) : ℝ) / ((k2 - k1 : Int) : ℝ)))))
              (GraphCurveValue.mk 0 0))) := by
  subst hg
  obtain ⟨hd, tl, hht, hmono⟩ :
      ∃ hd tl, l₁ ++ (k1, p1) :: (k2, p2) :: l₂ = hd :: tl ∧
        (∀ e, e ∈ expandFlat s hs (k1, p1) ((k2, p2) :: l₂) →
          e ∈ expandFlat s hs hd tl) := by
    cases l₁ with
    | nil => exact ⟨(k1, p1), (k2, p2) :: l₂, rfl, fun e he => he⟩
    | cons a l₁x =>
      refine ⟨a, l₁x ++ (k1, p1) :: (k2, p2) :: l₂, by simp, ?_⟩
      intro e he
      exact expandFlat_mem_mono s hs k1 p1 ((k2, p2) :: l₂) e l₁x a he
  rw [hht] at hsort ⊢
  obtain ⟨yh, ph⟩ := hd
  have hchain : List.Chain (fun a b : Int × GraphPoint => a.1 < b.1) (yh, ph) tl := hsort
  have hr : List.Chain' (fun a b : Int × GraphPoint => a.1 < b.1)
      ((yh, ph) :: expandFlat s hs (yh, ph) tl) :=
    expandFlat_chain_lt s hs tl (yh, ph) hchain
  refine ⟨(yh, ph) :: expandFlat s hs (yh, ph) tl,
    expandCurveSegments_ok_cons s hs yh ph tl hchain, hr, ?_, ?_⟩
  · intro e he
    have hmem : e ∈ (yh, ph) :: expandFlat s hs (yh, ph) tl := by
      rcases List.mem_cons.mp he with he | he
      · rw [he]
        exact List.mem_cons_self _ _
      · exact List.mem_cons_of_mem _ (expandFlat_mem_orig s hs tl (yh, ph) e he)
    exact lookupEntry_of_chain _ e.1 e.2 hr hmem
  · intro m hm
    have harith : s + (m : Int) * s = ((m : Int) + 1) * s := by ring
    have hmem0 : (k1 + (s + (m : Int) * s),
        interPoint p1 p2 (k2 - k1) (s + (m : Int) * s))
        ∈ subdivBlock s hs (k2 - k1) k1 p1 p2 s := by
      refine subdivBlock_mem s hs (k2 - k1) k1 p1 p2 m s ?_
      rw [harith]
      exact hm
    rw [harith] at hmem0
    have hmem1 := expandFlat_block_sub s hs k1 k2 p1 p2 l₂ hc _ hmem0
    have hmem2 := hmono _ hmem1
    have hmem3 : (k1 + ((m : Int) + 1) * s,
        interPoint p1 p2 (k2 - k1) (((m : Int) + 1) * s))
        ∈ (yh, ph) :: expandFlat s hs (yh, ph) tl := List.mem_cons_of_mem _ hmem2
    have hlook := lookupEntry_of_chain _ (k1 + ((m : Int) + 1) * s)
      (interPoint p1 p2 (k2 - k1) (((m : Int) + 1) * s)) hr hmem3
    rw [hlook, interPoint_of_not_linear p1 p2 (k2 - k1) (((m : Int) + 1) * s) hc]

theorem expandCurveSegments_curved_witness :
    ((0 : Int) < 25 ∧
      List.Chain' (fun a b : Int × GraphPoint => a.1 < b.1)
        [((0 : Int), GraphPoint.mk (GraphValue.mk 1 1) (GraphCurveValue.mk 0.2 0.8)),
          ((100 : Int), GraphPoint.mk (GraphValue.mk 2 2) (GraphCurveValue.mk 0 0))] ∧
      [((0 : Int), GraphPoint.mk (GraphValue.mk 1 1) (GraphCurveValue.mk 0.2 0.8)),
          ((100 : Int), GraphPoint.mk (GraphValue.mk 2 2) (GraphCurveValue.mk 0 0))]
        = [] ++ ((0 : Int), GraphPoint.mk (GraphValue.mk 1 1) (GraphCurveValue.mk 0.2 0.8))
            :: ((100 : Int), GraphPoint.mk (GraphValue.mk 2 2) (GraphCurveValue.mk 0 0))
            :: [] ∧
      ¬ (GraphPoint.mk (GraphValue.mk 1 1) (GraphCurveValue.mk 0.2 0.8)).curve.isLinear) ∧
    ∃ r,
      ExpandCurveSegments
          [((0 : Int), GraphPoint.mk (GraphValue.mk 1 1) (GraphCurveValue.mk 0.2 0.8)),
            ((100 : Int), GraphPoint.mk (GraphValue.mk 2 2) (GraphCurveValue.mk 0 0))] 25
        = Except.ok r ∧
      List.Chain' (fun a b : Int × GraphPoint => a.1 < b.1) r ∧
      (∀ e ∈ [((0 : Int), GraphPoint.mk (GraphValue.mk 1 1) (GraphCurveValue.mk 0.2 0.8)),
          ((100 : Int), GraphPoint.mk (GraphValue.mk 2 2) (GraphCurveValue.mk 0 0))],
        lookupEntry r e.1 = some e.2) ∧
      (∀ m : Nat, ((m : Int) + 1) * 25 < 100 - 0 →
        lookupEntry r (0 + ((m : Int) + 1) * 25)
          = some (GraphPoint.mk
              (GraphValue.mk
                (lerp (GraphPoint.mk (GraphValue.mk 1 1) (GraphCurveValue.mk 0.2 0.8)).v.vf
                  (GraphPoint.mk (GraphValue.mk 2 2) (GraphCurveValue.mk 0 0)).v.v
                  (EvaluateCurve
                    (GraphPoint.mk (GraphValue.mk 1 1) (GraphCurveValue.mk 0.2 0.8)).curve.a
                    (GraphPoint.mk (GraphValue.mk 1 1) (GraphCurveValue.mk 0.2 0.8)).curve.b
                    (((((m : Int) + 1) * 25 : Int) : ℝ) / ((100 - 0 : Int) : ℝ))))
                (lerp (GraphPoint.mk (GraphValue.mk 1 1) (GraphCurveValue.mk 0.2 0.8)).v.vf
                  (GraphPoint.mk (GraphValue.mk 2 2) (GraphCurveValue.mk 0 0)).v.v
                  (EvaluateCurve
                    (GraphPoint.mk (GraphValue.mk 1 1) (GraphCurveValue.mk 0.2 0.8)).curve.a
                    (GraphPoint.mk (GraphValue.mk 1 1) (GraphCurveValue.mk 0.2 0.8)).curve.b
                    (((((m : Int) + 1) * 25 : Int) : ℝ) / ((100 - 0 : Int) : ℝ)))))
              (GraphCurveValue.mk 0 0))) := by
  have hsort : List.Chain' (fun a b : Int × GraphPoint => a.1 < b.1)
      [((0 : Int), GraphPoint.mk (GraphValue.mk 1 1) (GraphCurveValue.mk 0.2 0.8)),
        ((100 : Int), GraphPoint.mk (GraphValue.mk 2 2) (GraphCurveValue.mk 0 0))] :=
    List.Chain.cons (by norm_num) List.Chain.nil
  have hc : ¬ (GraphPoint.mk (GraphValue.mk 1 1) (GraphCurveValue.mk 0.2 0.8)).curve.isLinear := by
    intro hcontra
    have ha : (0.2 : ℝ) = 0 := hcontra.1
    norm_num at ha
  exact ⟨⟨by norm_num, hsort, rfl, hc⟩,
    expandCurveSegments_curved _ 25 (by norm_num) hsort [] [] 0 100
      (GraphPoint.mk (GraphValue.mk 1 1) (GraphCurveValue.mk 0.2 0.8))
      (GraphPoint.mk (GraphValue.mk 2 2) (GraphCurveValue.mk 0 0)) rfl hc⟩
